import Mathlib

/-!
Verification of the go-walk concurrent directory walker (opencoff/go-walk).

The development shallowly embeds `walk.go` and the platform xattr shims.
External OS primitives (lstat, stat, readdir, symlink resolution, glob
matching, xattr reads) are parameters collected in an `Env` structure; the
walker's own logic is translated function-by-function from the Go source.
The concurrent scheduling of `walk.go` (workers draining one channel) only
affects the order in which directories are processed, so the traversal is
modelled as a work-queue loop (`runLoop`) driven by the per-directory step
`workerStep`; the synchronisation protocol itself (the `dirWg` counter and
the completion watcher) is modelled separately as a labelled transition
system in the `Sched` namespace.
-/

namespace Walk

/-! ### Go `os.FileMode` bits (from Go's os/types.go / io/fs) -/

def ModeDir : Nat := 1 <<< 31
def ModeSymlink : Nat := 1 <<< 27
def ModeDevice : Nat := 1 <<< 26
def ModeNamedPipe : Nat := 1 <<< 25
def ModeSocket : Nat := 1 <<< 24
def ModeCharDevice : Nat := 1 <<< 21
def ModeIrregular : Nat := 1 <<< 19

/-- Go `fs.ModeType`: the union of all mode bits that mark a non-regular
file. A mode is regular iff none of these bits is set. -/
def ModeType : Nat :=
  ModeDir ||| ModeSymlink ||| ModeNamedPipe ||| ModeSocket |||
  ModeDevice ||| ModeCharDevice ||| ModeIrregular

/-- Go `m.IsDir()`; FileMode is unsigned, so `m&ModeDir > 0` is `≠ 0`. -/
def modeIsDir (m : Nat) : Bool := (m &&& ModeDir) != 0

/-- Go `(m & os.ModeSymlink) > 0`. -/
def modeIsSymlink (m : Nat) : Bool := (m &&& ModeSymlink) != 0

/-- Go `m.IsRegular()`: no type bit set. -/
def modeIsRegular (m : Nat) : Bool := (m &&& ModeType) == 0

/-! ### walk.Type mask constants (walk.go lines 41-52) -/

def FILE : Nat := 1
def DIR : Nat := 2
def SYMLINK : Nat := 4
def DEVICE : Nat := 8
def SPECIAL : Nat := 16
def ALL : Nat := FILE ||| DIR ||| SYMLINK ||| DEVICE ||| SPECIAL

/-- The type-mask setup loop of `doWalk` over `typMap`: ORs the stdlib mode bits for every type
bit set in the caller's mask. `FILE` maps to mode `0` (walk.go line 123),
so it contributes nothing here and is special-cased in `output`. -/
def computeTyp (t : Nat) : Nat :=
  (if (t &&& DIR) != 0 then ModeDir else 0) |||
  (if (t &&& SYMLINK) != 0 then ModeSymlink else 0) |||
  (if (t &&& DEVICE) != 0 then ModeDevice ||| ModeCharDevice else 0) |||
  (if (t &&& SPECIAL) != 0 then ModeNamedPipe ||| ModeSocket else 0)

/-! ### Go string/path helpers used by walk.go -/

/-- Go `strings.HasSuffix`. -/
def hasSuffixG (s sfx : String) : Bool := sfx.data.isSuffixOf s.data

/-- Go `strings.TrimSuffix`: removes exactly one copy of the suffix, if
present. -/
def trimSuffixG (s sfx : String) : String :=
  if hasSuffixG s sfx then String.mk (s.data.take (s.data.length - sfx.data.length))
  else s

/-- Go `path.Base`: empty path gives ".", trailing slashes are stripped,
then everything up to the last "/" is dropped; an all-slash path gives
"/". -/
def pathBase (p : String) : String :=
  if p = "" then "."
  else
    let r := p.data.reverse.dropWhile (fun c => c = '/')
    if r = [] then "/"
    else String.mk ((r.takeWhile (fun c => c != '/')).reverse)

/-! ### Data model -/

/-- One stat result: Go `os.FileInfo` together with the `syscall.Stat_t`
identity triple exposed through `Sys()` (the cast always succeeds on the
unix builds this code targets). `name` is the base name, as returned by
`Readdir`. -/
structure FileInfo where
  name : String
  mode : Nat
  dev : Nat
  rdev : Nat
  ino : Nat
deriving DecidableEq, Repr

/-- The external OS primitives consumed by walk.go, as oracle functions:
`lstat`/`stat` (`os.Lstat`, `os.Stat`), `readdir` (`os.Open` followed by
`Readdir(-1)`, one combined failure case), `evalSymlinks`
(`filepath.EvalSymlinks`), `pathMatch` (`path.Match`: `ok` carries the
match result, `error` is a bad-pattern syntax error), and `getxattr`. -/
structure Env where
  lstat : String → Option FileInfo
  stat : String → Option FileInfo
  readdir : String → Option (List FileInfo)
  evalSymlinks : String → Option String
  pathMatch : String → String → Except String Bool
  getxattr : String → Except String (List (String × String))

/-- walk.Options (walk.go lines 55-77). The Go field `Type` is spelt
`TypeMask` here (`Type` is a Lean keyword). -/
structure Options where
  FollowSymlinks : Bool := false
  OneFS : Bool := false
  Xattr : Bool := false
  TypeMask : Nat := 0
  Excludes : List String := []
  Filter : Option (String → FileInfo → Bool) := none

/-- walk.Result (walk.go lines 80-90). -/
structure Result where
  Path : String
  Stat : FileInfo
  Xattr : List (String × String) := []
deriving DecidableEq, Repr

/-- walkState (walk.go lines 93-118). The two `sync.Map`s become
association lists (`Store`/`LoadOrStore` prepend, `Load` is `lookup`);
the output and error channels become the `emitted` and `errors` lists.
`visited` is a ghost log of successfully listed directories, used only to
state theorems; no walker code reads it. The `singlefs` function field and
the `Filter` default are folded into `singlefs`/`filterF` below. -/
structure walkState where
  opts : Options
  typ : Nat := 0
  fs : List (String × String) := []
  ino : List (String × (Nat × Nat × Nat)) := []
  emitted : List Result := []
  errors : List String := []
  visited : List String := []

def pushErr (d : walkState) (e : String) : walkState :=
  { d with errors := d.errors ++ [e] }

/-- The identity key `fmt.Sprintf("%d:%d:%d", st.Dev, st.Rdev, st.Ino)`
(walk.go line 521). -/
def inoKey (fi : FileInfo) : String :=
  toString fi.dev ++ ":" ++ toString fi.rdev ++ ":" ++ toString fi.ino

/-- The filesystem key `fmt.Sprintf("%d:%d", st.Dev, st.Rdev)`
(walk.go lines 546, 554). -/
def fsKey (fi : FileInfo) : String :=
  toString fi.dev ++ ":" ++ toString fi.rdev

/-- walk.go lines 552-561: true iff the entry's device pair was registered
by `trackFS`. -/
def isSingleFS (d : walkState) (nm : String) (fi : FileInfo) : Bool :=
  (d.fs.lookup (fsKey fi)).isSome

/-- walk.go lines 544-549. -/
def trackFS (d : walkState) (fi : FileInfo) (nm : String) : walkState :=
  { d with fs := (fsKey fi, nm) :: d.fs }

/-- walk.go lines 515-540 (`isEntrySeen`): `LoadOrStore` on the `ino` map;
if a previous entry with the same key exists and its triple agrees, the
result is `isSingleFS` (the "check one more time ... crosses mountpoints"
tail at line 539). -/
def isEntrySeen (d : walkState) (nm : String) (fi : FileInfo) : Bool × walkState :=
  let key := inoKey fi
  match d.ino.lookup key with
  | none => (false, { d with ino := (key, (fi.dev, fi.rdev, fi.ino)) :: d.ino })
  | some xt =>
    if xt.1 != fi.dev || xt.2.1 != fi.rdev || xt.2.2 != fi.ino then (false, d)
    else (isSingleFS d nm fi, d)

/-- The `d.singlefs` function field: `isSingleFS` when `OneFS` is set,
constant `true` otherwise (walk.go lines 248-250, 256-258). -/
def singlefs (d : walkState) (nm : String) (fi : FileInfo) : Bool :=
  if d.opts.OneFS then isSingleFS d nm fi else true

/-- The caller filter with the "accept everything" default
(walk.go lines 261-266). -/
def filterF (d : walkState) (nm : String) (fi : FileInfo) : Bool :=
  match d.opts.Filter with
  | none => false
  | some f => f nm fi

/-- The error `fmt.Errorf("glob '%s': %s", pat, err)` (walk.go line 383). -/
def globErrMsg (pat e : String) : String := "glob " ++ pat ++ ": " ++ e

/-- The pattern loop of `exclude` (walk.go lines 380-387): a bad pattern
appends an error and the loop continues; a match returns true. -/
def excludeLoop (env : Env) (d : walkState) (bn : String) :
    List String → Bool × walkState
  | [] => (false, d)
  | pat :: rest =>
    match env.pathMatch pat bn with
    | Except.error e => excludeLoop env (pushErr d (globErrMsg pat e)) bn rest
    | Except.ok true => (true, d)
    | Except.ok false => excludeLoop env d bn rest

/-- walk.go lines 374-390. -/
def exclude (env : Env) (d : walkState) (nm : String) : Bool × walkState :=
  if d.opts.Excludes.length = 0 then (false, d)
  else excludeLoop env d (pathBase nm) d.opts.Excludes

/-- The `d.apply` closure installed by `Walk` (walk.go lines 156-170):
fetch xattrs first when requested, drop the entry (reporting the error)
if that fails, otherwise send the Result. -/
def applyEmit (env : Env) (d : walkState) (nm : String) (fi : FileInfo) : walkState :=
  if d.opts.Xattr then
    match env.getxattr nm with
    | Except.error e => pushErr d e
    | Except.ok x => { d with emitted := d.emitted ++ [{ Path := nm, Stat := fi, Xattr := x }] }
  else
    { d with emitted := d.emitted ++ [{ Path := nm, Stat := fi }] }

/-- The emission test of `output` (walk.go line 368); FileMode is
unsigned so `> 0` is `≠ 0`. -/
def outputOk (d : walkState) (m : Nat) : Bool :=
  (d.typ &&& m) != 0 || ((d.opts.TypeMask &&& FILE) != 0 && modeIsRegular m)

/-- walk.go lines 361-371. -/
def output (env : Env) (d : walkState) (nm : String) (fi : FileInfo) : walkState :=
  if outputOk d fi.mode then applyEmit env d nm fi else d

/-- walk.go lines 476-511 (`doSymlink`): without FollowSymlinks the link
itself is output; otherwise resolve, re-stat, and process the target iff
`isEntrySeen` says it was not seen (directories are appended to the
pending-subdir list after the `singlefs` check). -/
def doSymlink (env : Env) (d : walkState) (nm : String) (fi : FileInfo)
    (dirs : List String) : List String × walkState :=
  if !d.opts.FollowSymlinks then
    (dirs, output env d nm fi)
  else
    match env.evalSymlinks nm with
    | none => (dirs, pushErr d ("symlink " ++ nm))
    | some newnm =>
      match env.stat newnm with
      | none => (dirs, pushErr d ("stat " ++ newnm))
      | some fi2 =>
        let p := isEntrySeen d newnm fi2
        if !p.1 then
          if modeIsDir fi2.mode then
            if singlefs p.2 newnm fi2 then (dirs ++ [newnm], p.2) else (dirs, p.2)
          else
            (dirs, output env p.2 newnm fi2)
        else (dirs, p.2)

/-- The child path `fmt.Sprintf("%s/%s", nm, fi.Name())`
(walk.go line 439): plain concatenation, deliberately not
`filepath.Join`, so nothing is cleaned or normalized. -/
def childFullPath (parent name : String) : String := parent ++ "/" ++ name

/-- The loop body of `walkPath` (walk.go lines 433-469) for one child:
exclude check on the joined path, then `isEntrySeen` (note the source
passes the parent `nm`, not `fp`, as its first argument - harmless, since
only the FileInfo is consulted), then the caller filter, then
classification. `parent` is the already-adjusted directory path. -/
def walkChild (env : Env) (parent : String) (acc : walkState × List String)
    (fi : FileInfo) : walkState × List String :=
  let m := fi.mode
  let fp := childFullPath parent fi.name
  let q := exclude env acc.1 fp
  if q.1 then (q.2, acc.2)
  else
    let p := isEntrySeen q.2 parent fi
    if p.1 then (p.2, acc.2)
    else if filterF p.2 fp fi then (p.2, acc.2)
    else if modeIsDir m then
      if singlefs p.2 fp fi then (p.2, acc.2 ++ [fp]) else (p.2, acc.2)
    else if modeIsSymlink m then
      let r := doSymlink env p.2 fp fi acc.2
      (r.2, r.1)
    else
      (output env p.2 fp fi, acc.2)

/-- walk.go lines 413-472 (`walkPath`): list the directory (open and
readdir failures both report an error and produce no work), apply the
"hack to make joined paths not look like //file" (lines 428-430), then
process each child; the returned list is what `enq` would queue. The
ghost `visited` log records each successfully listed directory. -/
def walkPath (env : Env) (d : walkState) (nm : String) : walkState × List String :=
  match env.readdir nm with
  | none => (pushErr d (nm ++ ": readdir error"), [])
  | some fiv =>
    let d := { d with visited := d.visited ++ [nm] }
    let parent := if nm = "/" then "" else nm
    fiv.foldl (walkChild env parent) (d, [])

/-- One iteration of the worker loop (walk.go lines 336-358): lstat the
queued directory, output its own entry, then process its contents. -/
def workerStep (env : Env) (d : walkState) (nm : String) : walkState × List String :=
  match env.lstat nm with
  | none => (pushErr d ("lstat " ++ nm), [])
  | some fi =>
    let d := output env d nm fi
    walkPath env d nm

/-- The root-name adjustment of `doWalk` (walk.go lines 288-291):
`strings.TrimSuffix(names[i], "/")`, then an empty result becomes "/". -/
def rootName (s : String) : String :=
  let nm := trimSuffixG s "/"
  if nm.length = 0 then "/" else nm

/-- The per-root body of `doWalk`'s loop (walk.go lines 293-327), applied
to the already-trimmed name: exclude, lstat, `isEntrySeen`, filter, then
classification (directories are collected for `enq`, after `trackFS` when
`OneFS` is set; symlinks go through `doSymlink`; everything else is
output inline). -/
def doWalkRoot (env : Env) (acc : walkState × List String) (nm : String) :
    walkState × List String :=
  let q := exclude env acc.1 nm
  if q.1 then (q.2, acc.2)
  else
    match env.lstat nm with
    | none => (pushErr q.2 ("lstat " ++ nm), acc.2)
    | some fi =>
      let p := isEntrySeen q.2 nm fi
      if p.1 then (p.2, acc.2)
      else if filterF p.2 nm fi then (p.2, acc.2)
      else if modeIsDir fi.mode then
        let d := if p.2.opts.OneFS then trackFS p.2 fi nm else p.2
        (d, acc.2 ++ [nm])
      else if modeIsSymlink fi.mode then
        let r := doSymlink env p.2 nm fi acc.2
        (r.2, r.1)
      else
        (output env p.2 nm fi, acc.2)

/-- walk.go lines 255-333 (`doWalk`): set up the type mask, trim each
root name, process the roots inline, and return the directories that the
final `enq` hands to the workers. -/
def doWalk (env : Env) (d : walkState) (names : List String) :
    walkState × List String :=
  let d := { d with typ := computeTyp d.opts.TypeMask }
  (names.map rootName).foldl (doWalkRoot env) (d, [])

/-- walk.go lines 239-253: a nil Options pointer is replaced by the zero
Options value. -/
def newWalkState (opt : Option Options) : walkState :=
  { opts := opt.getD {} }

/-- The worker pool, sequentialised: repeatedly pop a queued directory
and run `workerStep`, appending the discovered subdirectories to the
queue. Concurrency only permutes the processing order; `fuel` bounds the
number of directories processed (the real walker has no such bound and
can loop forever on an undetected cycle). -/
def runLoop (env : Env) : Nat → walkState → List String → walkState
  | 0, d, _ => d
  | _ + 1, d, [] => d
  | fuel + 1, d, nm :: rest =>
    let s := workerStep env d nm
    runLoop env fuel s.1 (rest ++ s.2)

/-- The entry point `Walk` (walk.go lines 151-184), sequentialised: build the state,
process the roots, then drain the work queue. -/
def walkRun (env : Env) (names : List String) (opt : Option Options)
    (fuel : Nat) : walkState :=
  let d := newWalkState opt
  let s := doWalk env d names
  runLoop env fuel s.1 s.2

end Walk

namespace Walk

/-! ### Concrete filesystems used for counterexamples and witnesses -/

/-- A regular file at absolute path "/t", identity (1,0,7). -/
def tFi : FileInfo := { name := "t", mode := 0, dev := 1, rdev := 0, ino := 7 }

/-- A directory named "r", identity (1,0,1). -/
def rDirFi : FileInfo := { name := "r", mode := ModeDir, dev := 1, rdev := 0, ino := 1 }

/-- A symlink "l1" inside "r". -/
def l1Fi : FileInfo := { name := "l1", mode := ModeSymlink, dev := 1, rdev := 0, ino := 2 }

/-- A second symlink "l2" inside "r", a different link object. -/
def l2Fi : FileInfo := { name := "l2", mode := ModeSymlink, dev := 1, rdev := 0, ino := 3 }

/-- Filesystem: directory "r" containing symlinks "l1" and "l2", both
resolving to the regular file "/t". -/
def env2 : Env := {
  lstat := fun s => if s = "r" then some rDirFi else none
  stat := fun s => if s = "/t" then some tFi else none
  readdir := fun s => if s = "r" then some [l1Fi, l2Fi] else none
  evalSymlinks := fun s => if s = "r/l1" || s = "r/l2" then some "/t" else none
  pathMatch := fun _ _ => Except.ok false
  getxattr := fun _ => Except.ok [] }

/-- A regular file "a" inside "r". -/
def aFi : FileInfo := { name := "a", mode := 0, dev := 1, rdev := 0, ino := 11 }

/-- A regular file "b" inside "r". -/
def bFi : FileInfo := { name := "b", mode := 0, dev := 1, rdev := 0, ino := 12 }

/-- Filesystem: directory "r" containing regular files "a" and "b"; the
glob matcher reports a syntax error for the pattern "[x" on every call
(as Go `path.Match` does for a malformed pattern). -/
def env3 : Env := {
  lstat := fun s => if s = "r" then some rDirFi else none
  stat := fun _ => none
  readdir := fun s => if s = "r" then some [aFi, bFi] else none
  evalSymlinks := fun _ => none
  pathMatch := fun pat _ =>
    if pat = "[x" then Except.error "bad pattern" else Except.ok false
  getxattr := fun _ => Except.ok [] }

/-- Filesystem: the root directory "/" containing the regular file "a". -/
def env7 : Env := {
  lstat := fun s =>
    if s = "/" then some { name := "/", mode := ModeDir, dev := 1, rdev := 0, ino := 1 }
    else none
  stat := fun _ => none
  readdir := fun s => if s = "/" then some [aFi] else none
  evalSymlinks := fun _ => none
  pathMatch := fun _ _ => Except.ok false
  getxattr := fun _ => Except.ok [] }

/-! ### C1 -/

/-- C1: the claim (and the doc comment of `isEntrySeen`, walk.go lines
513-514) says the check-and-insert returns false to the first caller of a
key and true to every subsequent caller, regardless of options. On the
code, the second call returns false again whenever the tracked-filesystem
map is empty - which is always the case when `OneFS` is unset, since
`trackFS` is only called under `d.OneFS` (walk.go lines 315-316): the
fall-through `return d.isSingleFS(nm, fi)` at line 539 is false then.
The third conjunct shows the same with `OneFS := true` before any root
registered the device. -/
theorem isEntrySeen_second_call_not_seen :
    (isEntrySeen (newWalkState none) "f" tFi).1 = false ∧
    (isEntrySeen ((isEntrySeen (newWalkState none) "f" tFi).2) "f" tFi).1 = false ∧
    (isEntrySeen ((isEntrySeen (newWalkState (some { OneFS := true })) "f" tFi).2) "f" tFi).1
      = false := by
  decide

/-! ### C2 -/

/-- C2: the claim says no two emitted entries share an identity key (hard
links to files directly discovered being the one exception), in particular
a target reachable through two different symlink paths is emitted at most
once. On the code, traversing `env2` (two symlinks to the same regular
file) with `FollowSymlinks` and without `OneFS` emits the resolved target
"/t" twice, both entries with identity key "1:0:7", because the second
`isEntrySeen` check returns false (see C1). -/
theorem walk_emits_duplicate_identity :
    (walkRun env2 ["r"] (some { FollowSymlinks := true, TypeMask := FILE }) 10).emitted
      = [{ Path := "/t", Stat := tFi }, { Path := "/t", Stat := tFi }] ∧
    ((walkRun env2 ["r"] (some { FollowSymlinks := true, TypeMask := FILE }) 10).emitted.map
        (fun r => inoKey r.Stat))
      = ["1:0:7", "1:0:7"] := by
  decide

/-! ### C5 -/

/-- xattr_openbsd.go `getxattr`: an empty mapping and no error. -/
def getxattrOpenbsd (p : String) : Except String (List (String × String)) :=
  Except.ok []

/-- xattr_openbsd.go `setxattr`: always the unsupported error. -/
def setxattrOpenbsd (p : String) (x : List (String × String)) : Except String Unit :=
  Except.error ("xattr " ++ p ++ ": unsupported on OpenBSD")

/-- xattr_openbsd.go `delxattr`: returns nil - success, not an error. -/
def delxattrOpenbsd (p : String) (x : List (String × String)) : Except String Unit :=
  Except.ok ()

/-- C5 counterexample: the claim says `deleteAttributes` fails with an
"unsupported" error for every path and attribute set on the OpenBSD
build; the code returns nil (success) instead. -/
theorem delxattr_openbsd_succeeds :
    delxattrOpenbsd "f" [("user.test", "v")] = Except.ok () := rfl

/-- C5 amended: on the OpenBSD build, `getxattr` returns an empty mapping
with no error and `setxattr` fails with an "unsupported" error for every
path and attribute set, while `delxattr` succeeds (returns nil) for every
path and attribute set. -/
theorem openbsd_xattr_behavior (p : String) (x : List (String × String)) :
    getxattrOpenbsd p = Except.ok [] ∧
    setxattrOpenbsd p x = Except.error ("xattr " ++ p ++ ": unsupported on OpenBSD") ∧
    delxattrOpenbsd p x = Except.ok () :=
  ⟨rfl, rfl, rfl⟩

/-! ### C3 -/

/-- C3 counterexample: the claim says a malformed pattern's syntax error
is reported exactly once per traversal, at first use. Walking `env3` (one
directory with two files) with the malformed exclude pattern "[x" reports
the glob error three times: once for the root and once per child, because
`exclude` re-invokes `path.Match` - and re-sends the error - on every
evaluation (walk.go lines 380-387). -/
theorem malformed_glob_reported_thrice :
    (walkRun env3 ["r"] (some { TypeMask := FILE, Excludes := ["[x"] }) 10).errors
      = [globErrMsg "[x" "bad pattern",
         globErrMsg "[x" "bad pattern",
         globErrMsg "[x" "bad pattern"] ∧
    (walkRun env3 ["r"] (some { TypeMask := FILE, Excludes := ["[x"] }) 10).errors.length
      = 3 := by
  decide

lemma excludeLoop_allErr (env : Env) (bn : String) :
    ∀ (pats : List String) (d : walkState),
      (∀ p ∈ pats, ∃ e, env.pathMatch p bn = Except.error e) →
      (excludeLoop env d bn pats).1 = false ∧
      (excludeLoop env d bn pats).2.errors.length = d.errors.length + pats.length := by
  intro pats
  induction pats with
  | nil => intro d _; exact ⟨rfl, rfl⟩
  | cons pat rest ih =>
    intro d h
    obtain ⟨e, he⟩ := h pat (List.mem_cons_self pat rest)
    have hrest : ∀ p ∈ rest, ∃ e, env.pathMatch p bn = Except.error e :=
      fun p hp => h p (List.mem_cons_of_mem _ hp)
    have hres := ih (pushErr d (globErrMsg pat e)) hrest
    simp only [excludeLoop, he]
    refine ⟨hres.1, ?_⟩
    rw [hres.2]
    simp [pushErr]
    omega

/-- C3 amended: a malformed glob pattern is reported as an error at every
evaluation of `exclude` (once per entry checked, each time `path.Match`
is consulted), not once per traversal, and it is treated as non-matching
in every evaluation: if every pattern in the exclude list is malformed,
`exclude` returns false and appends exactly one error per pattern, every
time it is called. -/
theorem malformed_globs_error_every_evaluation (env : Env) (d : walkState) (nm : String)
    (h : ∀ p ∈ d.opts.Excludes, ∃ e, env.pathMatch p (pathBase nm) = Except.error e) :
    (exclude env d nm).1 = false ∧
    (exclude env d nm).2.errors.length = d.errors.length + d.opts.Excludes.length := by
  unfold exclude
  by_cases hz : d.opts.Excludes.length = 0
  · simp [hz]
  · simp only [hz, if_neg hz]
    exact excludeLoop_allErr env (pathBase nm) d.opts.Excludes d h

/-- Witness for C3's amended theorem at a concrete input. -/
theorem malformed_globs_error_every_evaluation_witness :
    (exclude env3 { opts := { Excludes := ["[x"] } } "r").1 = false ∧
    (exclude env3 { opts := { Excludes := ["[x"] } } "r").2.errors.length = 0 + 1 :=
  malformed_globs_error_every_evaluation env3 { opts := { Excludes := ["[x"] } } "r"
    (by
      intro p hp
      have hpe : p = "[x" := by simpa using hp
      subst hpe
      exact ⟨"bad pattern", rfl⟩)

/-! ### C6 counterexample -/

/-- C6 counterexample: the claim says every root-level entry matching the
type mask (including directory roots) is emitted inline by the initiating
caller, never handed to a worker. On the code, a directory root is never
emitted by `doWalk` itself: it is appended to the pending-directory list
handed to `enq` (walk.go lines 314-318, 330-331), and its entry is
emitted later by a worker (walk.go line 346). Here root "r" matches mask
DIR, passes every check, yet `doWalk` emits nothing and queues "r";
the full run then emits it from the worker loop. -/
theorem dir_root_not_emitted_inline :
    (doWalk env3 (newWalkState (some { TypeMask := DIR })) ["r"]).1.emitted = [] ∧
    (doWalk env3 (newWalkState (some { TypeMask := DIR })) ["r"]).2 = ["r"] ∧
    ((walkRun env3 ["r"] (some { TypeMask := DIR }) 10).emitted.map Result.Path)
      = ["r"] := by
  decide

/-! ### Frame lemmas: the filter/identity checks touch only `errors`/`ino` -/

lemma excludeLoop_frame (env : Env) (bn : String) :
    ∀ (pats : List String) (d : walkState),
      (excludeLoop env d bn pats).2.opts = d.opts ∧
      (excludeLoop env d bn pats).2.typ = d.typ ∧
      (excludeLoop env d bn pats).2.fs = d.fs ∧
      (excludeLoop env d bn pats).2.ino = d.ino ∧
      (excludeLoop env d bn pats).2.emitted = d.emitted ∧
      (excludeLoop env d bn pats).2.visited = d.visited := by
  intro pats
  induction pats with
  | nil => intro d; exact ⟨rfl, rfl, rfl, rfl, rfl, rfl⟩
  | cons pat rest ih =>
    intro d
    cases he : env.pathMatch pat bn with
    | error e =>
      simp only [excludeLoop, he]
      exact ih (pushErr d (globErrMsg pat e))
    | ok b =>
      cases b with
      | true => simp [excludeLoop, he]
      | false => simp only [excludeLoop, he]; exact ih d

lemma exclude_frame (env : Env) (d : walkState) (nm : String) :
    (exclude env d nm).2.opts = d.opts ∧
    (exclude env d nm).2.typ = d.typ ∧
    (exclude env d nm).2.fs = d.fs ∧
    (exclude env d nm).2.ino = d.ino ∧
    (exclude env d nm).2.emitted = d.emitted ∧
    (exclude env d nm).2.visited = d.visited := by
  unfold exclude
  split
  · exact ⟨rfl, rfl, rfl, rfl, rfl, rfl⟩
  · exact excludeLoop_frame env (pathBase nm) d.opts.Excludes d

lemma isEntrySeen_frame (d : walkState) (nm : String) (fi : FileInfo) :
    (isEntrySeen d nm fi).2.opts = d.opts ∧
    (isEntrySeen d nm fi).2.typ = d.typ ∧
    (isEntrySeen d nm fi).2.fs = d.fs ∧
    (isEntrySeen d nm fi).2.emitted = d.emitted ∧
    (isEntrySeen d nm fi).2.errors = d.errors ∧
    (isEntrySeen d nm fi).2.visited = d.visited := by
  cases h : d.ino.lookup (inoKey fi) with
  | none => simp [isEntrySeen, h]
  | some xt =>
    simp only [isEntrySeen, h]
    split <;> simp

lemma trackFS_emitted (d : walkState) (fi : FileInfo) (nm : String) :
    (trackFS d fi nm).emitted = d.emitted := rfl

lemma output_not_match (env : Env) (d : walkState) (nm : String) (fi : FileInfo)
    (h : outputOk d fi.mode = false) : output env d nm fi = d := by
  simp [output, h]

lemma output_match_noxattr (env : Env) (d : walkState) (nm : String) (fi : FileInfo)
    (h : outputOk d fi.mode = true) (hxa : d.opts.Xattr = false) :
    output env d nm fi = { d with emitted := d.emitted ++ [{ Path := nm, Stat := fi }] } := by
  simp [output, h, applyEmit, hxa]

/-! ### C6 amended -/

/-- C6 amended: a root-level entry passing the exclude, identity and
filter checks is emitted inline by the initiating caller only when it is
not a directory (and, for symlinks, only after resolution); a directory
root is not emitted inline - it is queued for the workers, which emit its
entry when they dequeue it. First conjunct: a directory root leaves the
inline emission list untouched and is appended to the queue. Second
conjunct: a non-directory, non-symlink root matching the type mask is
emitted inline and queues nothing. -/
theorem root_emission_by_kind (env : Env) (d : walkState) (dirs : List String)
    (nm : String) (fi : FileInfo)
    (hx : (exclude env d nm).1 = false)
    (hl : env.lstat nm = some fi)
    (hs : (isEntrySeen (exclude env d nm).2 nm fi).1 = false)
    (hf : filterF (isEntrySeen (exclude env d nm).2 nm fi).2 nm fi = false) :
    (modeIsDir fi.mode = true →
      (doWalkRoot env (d, dirs) nm).1.emitted = d.emitted ∧
      (doWalkRoot env (d, dirs) nm).2 = dirs ++ [nm]) ∧
    (modeIsDir fi.mode = false → modeIsSymlink fi.mode = false →
      d.opts.Xattr = false → outputOk d fi.mode = true →
      (doWalkRoot env (d, dirs) nm).1.emitted = d.emitted ++ [{ Path := nm, Stat := fi }] ∧
      (doWalkRoot env (d, dirs) nm).2 = dirs) := by
  obtain ⟨qo, qt, qf, qi, qe, qv⟩ := exclude_frame env d nm
  obtain ⟨po, pt, pf, pe, pr, pv⟩ := isEntrySeen_frame (exclude env d nm).2 nm fi
  constructor
  · intro hdir
    simp only [doWalkRoot, hx, Bool.false_eq_true, if_false, hl, hs, hf, hdir, if_true]
    constructor
    · split
      · rw [trackFS_emitted]; rw [pe, qe]
      · rw [pe, qe]
    · trivial
  · intro hdir hsym hxa hok
    have hok2 : outputOk (isEntrySeen (exclude env d nm).2 nm fi).2 fi.mode = true := by
      unfold outputOk at hok ⊢
      rw [pt, qt, po, qo]
      exact hok
    have hxa2 : (isEntrySeen (exclude env d nm).2 nm fi).2.opts.Xattr = false := by
      rw [po, qo]; exact hxa
    simp only [doWalkRoot, hx, Bool.false_eq_true, if_false, hl, hs, hf, hdir, hsym]
    rw [output_match_noxattr env _ nm fi hok2 hxa2]
    constructor
    · simp only [pe, qe]
    · trivial

/-- Witness for C6's amended theorem: the directory root "r" of `env3`
is queued, not emitted inline; its hypotheses hold by evaluation. -/
theorem root_emission_by_kind_witness :
    (modeIsDir rDirFi.mode = true →
      (doWalkRoot env3 (newWalkState (some { TypeMask := DIR }), []) "r").1.emitted
        = (newWalkState (some { TypeMask := DIR })).emitted ∧
      (doWalkRoot env3 (newWalkState (some { TypeMask := DIR }), []) "r").2 = [] ++ ["r"]) ∧
    (modeIsDir rDirFi.mode = false → modeIsSymlink rDirFi.mode = false →
      (newWalkState (some { TypeMask := DIR })).opts.Xattr = false →
      outputOk (newWalkState (some { TypeMask := DIR })) rDirFi.mode = true →
      (doWalkRoot env3 (newWalkState (some { TypeMask := DIR }), []) "r").1.emitted
        = (newWalkState (some { TypeMask := DIR })).emitted ++ [{ Path := "r", Stat := rDirFi }] ∧
      (doWalkRoot env3 (newWalkState (some { TypeMask := DIR }), []) "r").2 = []) :=
  root_emission_by_kind env3 (newWalkState (some { TypeMask := DIR })) [] "r" rDirFi
    (by decide) (by decide) (by decide) (by decide)

/-! ### C7 -/

/-- C7 counterexample: the claim says every child's emitted/queued path
equals the parent path ++ "/" ++ name. For the parent "/" the code first
replaces the parent by "" ("hack to make joined paths not look like
//file", walk.go lines 427-430): the child "a" of "/" is emitted as "/a",
not as "/" ++ "/" ++ "a" = "//a". -/
theorem child_of_slash_root_path :
    ((walkPath env7 { opts := { TypeMask := FILE } } "/").1.emitted.map Result.Path)
      = ["/a"] ∧
    childFullPath "/" "a" = "//a" ∧
    ("/a" : String) ≠ "//a" := by
  decide

lemma walkChild_queues_verbatim (env : Env) (parent : String) (d : walkState)
    (dirs : List String) (fi : FileInfo) (hdir : modeIsDir fi.mode = true) :
    (walkChild env parent (d, dirs) fi).2 = dirs ∨
    (walkChild env parent (d, dirs) fi).2 = dirs ++ [childFullPath parent fi.name] := by
  simp only [walkChild]
  split_ifs with h1 h2 h3 h4
  · exact Or.inl rfl
  · exact Or.inl rfl
  · exact Or.inl rfl
  · exact Or.inr rfl
  · exact Or.inl rfl

lemma walkChild_emits_verbatim (env : Env) (parent : String) (d : walkState)
    (dirs : List String) (fi : FileInfo) (hdir : modeIsDir fi.mode = false)
    (hsym : modeIsSymlink fi.mode = false) (hxa : d.opts.Xattr = false) :
    (walkChild env parent (d, dirs) fi).1.emitted = d.emitted ∨
    (walkChild env parent (d, dirs) fi).1.emitted
      = d.emitted ++ [{ Path := childFullPath parent fi.name, Stat := fi }] := by
  obtain ⟨qo, qt, qf, qi, qe, qv⟩ := exclude_frame env d (childFullPath parent fi.name)
  obtain ⟨po, pt, pf, pe, pr, pv⟩ :=
    isEntrySeen_frame (exclude env d (childFullPath parent fi.name)).2 parent fi
  simp only [walkChild]
  split_ifs with h1 h2 h3 h4 h5 h6
  · exact Or.inl qe
  · exact Or.inl (pe.trans qe)
  · exact Or.inl (pe.trans qe)
  · simp [hdir] at h4
  · simp [hdir] at h4
  · simp [hsym] at h6
  · cases hok : outputOk (isEntrySeen (exclude env d (childFullPath parent fi.name)).2
        parent fi).2 fi.mode with
    | false =>
      rw [output_not_match _ _ _ _ hok]
      exact Or.inl (pe.trans qe)
    | true =>
      rw [output_match_noxattr _ _ _ _ hok (by rw [po, qo]; exact hxa)]
      right
      simp only [pe, qe]

/-- C7 amended: for every child discovered while listing a directory, the
path is the verbatim concatenation parentUsed ++ "/" ++ name with no
normalization or cleaning (so a leading "." of the supplied root is
preserved), where parentUsed is the listed directory's own path for every
parent other than "/", and the empty string for the parent "/" (so
children of "/" get "/name" rather than "//name"). -/
theorem child_paths_verbatim_concat :
    (∀ (env : Env) (d : walkState) (nm : String) (fiv : List FileInfo),
      env.readdir nm = some fiv →
      walkPath env d nm =
        fiv.foldl (walkChild env (if nm = "/" then "" else nm))
          ({ d with visited := d.visited ++ [nm] }, [])) ∧
    (∀ (parent name : String), childFullPath parent name = parent ++ "/" ++ name) ∧
    (∀ (name : String), childFullPath "" name = "/" ++ name) ∧
    (∀ (env : Env) (parent : String) (d : walkState) (dirs : List String) (fi : FileInfo),
      modeIsDir fi.mode = true →
      (walkChild env parent (d, dirs) fi).2 = dirs ∨
      (walkChild env parent (d, dirs) fi).2 = dirs ++ [childFullPath parent fi.name]) ∧
    (∀ (env : Env) (parent : String) (d : walkState) (dirs : List String) (fi : FileInfo),
      modeIsDir fi.mode = false → modeIsSymlink fi.mode = false → d.opts.Xattr = false →
      (walkChild env parent (d, dirs) fi).1.emitted = d.emitted ∨
      (walkChild env parent (d, dirs) fi).1.emitted
        = d.emitted ++ [{ Path := childFullPath parent fi.name, Stat := fi }]) := by
  refine ⟨?_, ?_, ?_, ?_, ?_⟩
  · intro env d nm fiv h
    unfold walkPath
    rw [h]
  · intro parent name; rfl
  · intro name; rfl
  · exact walkChild_queues_verbatim
  · exact walkChild_emits_verbatim

/-- A subdirectory FileInfo used in witnesses. -/
def subFi : FileInfo := { name := "sub", mode := ModeDir, dev := 1, rdev := 0, ino := 21 }

/-- Witness for C7's amended theorem at concrete inputs. -/
theorem child_paths_verbatim_concat_witness :
    (walkPath env7 { opts := { TypeMask := FILE } } "/").1.visited = ["/"] ∧
    ((walkChild env3 "r" ({ opts := {} }, []) subFi).2 = [] ∨
     (walkChild env3 "r" ({ opts := {} }, []) subFi).2 = [] ++ [childFullPath "r" "sub"]) := by
  constructor
  · have h := child_paths_verbatim_concat.1 env7 { opts := { TypeMask := FILE } } "/" [aFi] rfl
    rw [h]; decide
  · exact child_paths_verbatim_concat.2.2.2.1 env3 "r" { opts := {} } [] subFi (by decide)

/-! ### C10 -/

lemma trimSuffixG_one_slash (s : String) : trimSuffixG (s ++ "/") "/" = s := by
  have h2 : hasSuffixG (s ++ "/") "/" = true := by
    unfold hasSuffixG
    show ['/'].isSuffixOf (s.data ++ ['/']) = true
    simp [List.isSuffixOf]
  unfold trimSuffixG
  rw [h2]
  have h3 : (s ++ "/").data = s.data ++ ['/'] := rfl
  have h4 : ("/" : String).data.length = 1 := rfl
  simp only [if_true, h3, h4, List.length_append, List.length_singleton,
    Nat.add_sub_cancel, List.take_left]

/-- C10: exactly one trailing "/" is removed from each root name
(`strings.TrimSuffix`, walk.go line 288), before any exclusion check,
stat or filtering (the trimmed name is what `doWalkRoot` - the loop body
containing those checks - receives); an empty or all-slash-reduced name
becomes "/" (lines 289-291); and children of the root "/" are joined
against the empty parent, giving "/name" rather than "//name" (lines
428-430). The final conjunct runs the root "//" over a concrete
filesystem: it is processed as "/" and its child is emitted as "/a". -/
theorem root_trim_once_and_slash_children :
    (∀ s : String, trimSuffixG (s ++ "/") "/" = s) ∧
    rootName "" = "/" ∧
    rootName "/" = "/" ∧
    (∀ (env : Env) (d : walkState) (names : List String),
      doWalk env d names =
        (names.map rootName).foldl (doWalkRoot env)
          ({ d with typ := computeTyp d.opts.TypeMask }, [])) ∧
    (∀ (env : Env) (d : walkState) (fiv : List FileInfo),
      env.readdir "/" = some fiv →
      walkPath env d "/" =
        fiv.foldl (walkChild env "") ({ d with visited := d.visited ++ ["/"] }, [])) ∧
    (∀ name : String, childFullPath "" name = "/" ++ name) ∧
    ((walkRun env7 ["//"] (some { TypeMask := FILE ||| DIR }) 10).emitted.map Result.Path)
      = ["/", "/a"] := by
  refine ⟨trimSuffixG_one_slash, by decide, by decide, ?_, ?_, fun _ => rfl, by decide⟩
  · intro env d names
    rfl
  · intro env d fiv h
    unfold walkPath
    rw [h]
    simp

/-- Witness for C10's theorem at a concrete input (the conjunct about
children of "/", whose hypothesis is the concrete directory listing). -/
theorem root_trim_once_and_slash_children_witness :
    walkPath env7 { opts := { TypeMask := FILE } } "/" =
      [aFi].foldl (walkChild env7 "")
        ({ opts := { TypeMask := FILE }, visited := ["/"] }, []) :=
  root_trim_once_and_slash_children.2.2.2.2.1 env7 { opts := { TypeMask := FILE } } [aFi] rfl

end Walk

/-! ### C4: the completion-counting protocol

`walk.go` tracks in-flight directories with the `dirWg` counter: `enq`
(lines 394-403) performs `dirWg.Add(len(dirs))` synchronously and only
then spawns the goroutine that pushes the names onto the channel; a
worker (lines 336-358) pops a name, processes it (`walkPath` ends with
the `enq` of the discovered subdirectories) and calls `dirWg.Done()` only
after `walkPath` has returned; the completion watcher (lines 175-179)
blocks in `dirWg.Wait()` and closes the output and error channels when
the counter reaches zero. The protocol is modelled as a labelled
transition system whose atomic steps mirror exactly these program points.
-/

namespace Sched

/-- A protocol configuration: `counter` is the `dirWg` count; `toPush`
are directories whose `Add` has executed but whose channel send is still
pending inside an `enq` goroutine; `queue` is the channel content;
`procPre` counts directories popped by a worker that has not yet run the
`enq` of their subdirectories; `procPost` counts those whose `enq` ran
but whose `Done` has not; `closed` says the watcher closed the sinks. -/
structure Conf where
  counter : Nat
  toPush : List String
  queue : List String
  procPre : Nat
  procPost : Nat
  closed : Bool
deriving DecidableEq, Repr

/-- walk.go lines 394-403 (`enq`): for a non-empty list the counter is
incremented by the number of discovered subdirectories *before* the
asynchronous push begins - the counter credit and the to-push debt
appear in the same atomic step, ahead of every individual channel send. -/
def enq (c : Conf) (dirs : List String) : Conf :=
  if 0 < dirs.length then
    { c with counter := c.counter + dirs.length, toPush := c.toPush ++ dirs }
  else c

/-- The atomic steps of the protocol, one per program point:
`push` - the `enq` goroutine sends one queued name to the channel;
`pop` - a worker receives a directory (walk.go line 337);
`enqChild` - that worker's `walkPath` finishes, running `enq` over the
subdirectories it discovered (line 471; an error path is `dirs = []`);
`done` - the worker's `dirWg.Done()` (line 354), after `enqChild`;
`close` - the watcher's `dirWg.Wait()` returns, which the WaitGroup
semantics permit only at counter zero, and the sinks close (176-179). -/
inductive Step : Conf → Conf → Prop
  | push (c : Conf) (nm : String) (rest : List String) :
      c.toPush = nm :: rest →
      Step c { c with toPush := rest, queue := c.queue ++ [nm] }
  | pop (c : Conf) (nm : String) (rest : List String) :
      c.queue = nm :: rest →
      Step c { c with queue := rest, procPre := c.procPre + 1 }
  | enqChild (c : Conf) (dirs : List String) :
      0 < c.procPre →
      Step c (enq { c with procPre := c.procPre - 1, procPost := c.procPost + 1 } dirs)
  | done (c : Conf) :
      0 < c.procPost →
      Step c { c with procPost := c.procPost - 1, counter := c.counter - 1 }
  | close (c : Conf) :
      c.counter = 0 → c.closed = false →
      Step c { c with closed := true }

/-- The initial configuration: `doWalk`'s final `enq(dirs)` of the root
directories (walk.go line 331), from the empty protocol state. -/
def init (roots : List String) : Conf :=
  enq { counter := 0, toPush := [], queue := [], procPre := 0, procPost := 0,
        closed := false } roots

/-- Reachability along protocol steps. -/
inductive Reach (c0 : Conf) : Conf → Prop
  | refl : Reach c0 c0
  | tail {c c' : Conf} : Reach c0 c → Step c c' → Reach c0 c'

/-- Directories discovered but not yet fully processed. -/
def pending (c : Conf) : Nat :=
  c.toPush.length + c.queue.length + c.procPre + c.procPost

lemma enq_closed (c : Conf) (dirs : List String) : (enq c dirs).closed = c.closed := by
  unfold enq; split <;> rfl

lemma counter_eq_pending_step {c c' : Conf} (h : Step c c')
    (hc : c.counter = pending c) : c'.counter = pending c' := by
  cases h with
  | push nm rest hp =>
    simp [pending, hp] at hc ⊢
    omega
  | pop nm rest hp =>
    simp [pending, hp] at hc ⊢
    omega
  | enqChild dirs hpre =>
    unfold enq
    split
    · simp [pending] at hc ⊢
      omega
    · simp [pending] at hc ⊢
      omega
  | done hpost =>
    simp [pending] at hc ⊢
    omega
  | close h0 hcf =>
    simpa [pending] using hc

/-- C4: in every configuration reachable from the initial `enq` of the
roots, the `dirWg` counter equals the number of
discovered-but-unprocessed directories - because each `enq` adds its
count before any push, the watcher can never observe a zero counter
while such a directory exists; consequently any step that transitions
the sinks from open to closed (only the watcher's `close`) happens in a
configuration with no pending directory at all. The last conjunct
restates `enq`'s increment-before-push shape explicitly. -/
theorem counter_covers_pending (roots : List String) (c : Conf)
    (h : Reach (init roots) c) :
    c.counter = pending c ∧
    (∀ c' : Conf, Step c c' → c.closed = false → c'.closed = true → pending c = 0) ∧
    (∀ (c2 : Conf) (dirs : List String), 0 < dirs.length →
      (enq c2 dirs).counter = c2.counter + dirs.length ∧
      (enq c2 dirs).toPush = c2.toPush ++ dirs) := by
  have inv : c.counter = pending c := by
    induction h with
    | refl =>
      unfold init enq pending
      split <;> simp
    | tail hr hs ih => exact counter_eq_pending_step hs ih
  refine ⟨inv, ?_, ?_⟩
  · intro c' hs hcf hct
    cases hs with
    | push nm rest hp => simp [hcf] at hct
    | pop nm rest hp => simp [hcf] at hct
    | enqChild dirs hpre =>
      rw [enq_closed] at hct
      simp [hcf] at hct
    | done hpost => simp [hcf] at hct
    | close h0 hc2 => omega
  · intro c2 dirs hlen
    unfold enq
    rw [if_pos hlen]
    exact ⟨rfl, rfl⟩

/-- Witness for C4's theorem at the initial configuration of a one-root
traversal. -/
theorem counter_covers_pending_witness :
    (init ["a"]).counter = pending (init ["a"]) ∧
    (∀ c' : Conf, Step (init ["a"]) c' → (init ["a"]).closed = false →
      c'.closed = true → pending (init ["a"]) = 0) ∧
    (∀ (c2 : Conf) (dirs : List String), 0 < dirs.length →
      (enq c2 dirs).counter = c2.counter + dirs.length ∧
      (enq c2 dirs).toPush = c2.toPush ++ dirs) :=
  counter_covers_pending ["a"] (init ["a"]) Reach.refl

end Sched

namespace Walk

/-! ### Control-flow equivalence up to the type mask (for C8, C9)

The type mask (`opts.TypeMask` and the derived `typ`) is read only by
`outputOk`, and `output`/`applyEmit` write only `emitted` and `errors`,
which no walker function reads. Hence two states that agree on everything
the control flow reads - all options except the mask, the two identity
maps, and the directory queue - evolve in lock-step: same directories
visited, same subdirectories queued. `CtrlEq` captures that agreement. -/

structure CtrlEq (d d' : walkState) : Prop where
  follow : d.opts.FollowSymlinks = d'.opts.FollowSymlinks
  onefs : d.opts.OneFS = d'.opts.OneFS
  xattrs : d.opts.Xattr = d'.opts.Xattr
  excl : d.opts.Excludes = d'.opts.Excludes
  filt : d.opts.Filter = d'.opts.Filter
  fs : d.fs = d'.fs
  ino : d.ino = d'.ino
  visited : d.visited = d'.visited

lemma ctrlEq_refl (d : walkState) : CtrlEq d d :=
  ⟨rfl, rfl, rfl, rfl, rfl, rfl, rfl, rfl⟩

lemma ctrlEq_symm {d d' : walkState} (h : CtrlEq d d') : CtrlEq d' d :=
  ⟨h.follow.symm, h.onefs.symm, h.xattrs.symm, h.excl.symm, h.filt.symm,
   h.fs.symm, h.ino.symm, h.visited.symm⟩

lemma ctrlEq_trans {a b c : walkState} (h1 : CtrlEq a b) (h2 : CtrlEq b c) : CtrlEq a c :=
  ⟨h1.follow.trans h2.follow, h1.onefs.trans h2.onefs, h1.xattrs.trans h2.xattrs,
   h1.excl.trans h2.excl, h1.filt.trans h2.filt, h1.fs.trans h2.fs,
   h1.ino.trans h2.ino, h1.visited.trans h2.visited⟩

lemma pushErr_ctrl (d : walkState) (e : String) : CtrlEq (pushErr d e) d :=
  ⟨rfl, rfl, rfl, rfl, rfl, rfl, rfl, rfl⟩

lemma applyEmit_ctrl (env : Env) (d : walkState) (nm : String) (fi : FileInfo) :
    CtrlEq (applyEmit env d nm fi) d := by
  unfold applyEmit
  split
  · cases env.getxattr nm with
    | error e => exact pushErr_ctrl d e
    | ok x => exact ⟨rfl, rfl, rfl, rfl, rfl, rfl, rfl, rfl⟩
  · exact ⟨rfl, rfl, rfl, rfl, rfl, rfl, rfl, rfl⟩

lemma output_ctrl (env : Env) (d : walkState) (nm : String) (fi : FileInfo) :
    CtrlEq (output env d nm fi) d := by
  unfold output
  split
  · exact applyEmit_ctrl env d nm fi
  · exact ctrlEq_refl d

lemma exclude_ctrl (env : Env) (d : walkState) (nm : String) :
    CtrlEq (exclude env d nm).2 d := by
  obtain ⟨ho, ht, hf, hi, he, hv⟩ := exclude_frame env d nm
  exact ⟨by rw [ho], by rw [ho], by rw [ho], by rw [ho], by rw [ho], hf, hi, hv⟩

lemma trackFS_ctrl_congr {d d' : walkState} (fi : FileInfo) (nm : String)
    (h : CtrlEq d d') : CtrlEq (trackFS d fi nm) (trackFS d' fi nm) :=
  ⟨h.follow, h.onefs, h.xattrs, h.excl, h.filt, by simp [trackFS, h.fs], h.ino, h.visited⟩

lemma excludeLoop_fst (env : Env) (bn : String) :
    ∀ (pats : List String) (d d' : walkState),
      (excludeLoop env d bn pats).1 = (excludeLoop env d' bn pats).1 := by
  intro pats
  induction pats with
  | nil => intro d d'; rfl
  | cons pat rest ih =>
    intro d d'
    cases he : env.pathMatch pat bn with
    | error e => simp only [excludeLoop, he]; exact ih _ _
    | ok b => cases b <;> simp only [excludeLoop, he]; exact ih _ _

lemma exclude_congr (env : Env) (nm : String) {d d' : walkState} (h : CtrlEq d d') :
    (exclude env d nm).1 = (exclude env d' nm).1 ∧
    CtrlEq (exclude env d nm).2 (exclude env d' nm).2 := by
  constructor
  · unfold exclude
    rw [h.excl]
    split
    · rfl
    · exact excludeLoop_fst env (pathBase nm) d'.opts.Excludes d d'
  · exact ctrlEq_trans (exclude_ctrl env d nm) (ctrlEq_trans h (ctrlEq_symm (exclude_ctrl env d' nm)))

lemma isSingleFS_congr (nm : String) (fi : FileInfo) {d d' : walkState} (h : CtrlEq d d') :
    isSingleFS d nm fi = isSingleFS d' nm fi := by
  unfold isSingleFS
  rw [h.fs]

lemma singlefs_congr (nm : String) (fi : FileInfo) {d d' : walkState} (h : CtrlEq d d') :
    singlefs d nm fi = singlefs d' nm fi := by
  unfold singlefs
  rw [h.onefs]
  split
  · exact isSingleFS_congr nm fi h
  · rfl

lemma filterF_congr (nm : String) (fi : FileInfo) {d d' : walkState} (h : CtrlEq d d') :
    filterF d nm fi = filterF d' nm fi := by
  unfold filterF
  rw [h.filt]

lemma isEntrySeen_congr (nm : String) (fi : FileInfo) {d d' : walkState} (h : CtrlEq d d') :
    (isEntrySeen d nm fi).1 = (isEntrySeen d' nm fi).1 ∧
    CtrlEq (isEntrySeen d nm fi).2 (isEntrySeen d' nm fi).2 := by
  simp only [isEntrySeen]
  rw [h.ino]
  cases hl : d'.ino.lookup (inoKey fi) with
  | none =>
    simp only [hl]
    refine ⟨by simp, ?_⟩
    exact ⟨h.follow, h.onefs, h.xattrs, h.excl, h.filt, h.fs, rfl, h.visited⟩
  | some xt =>
    simp only [hl]
    split
    · exact ⟨rfl, h⟩
    · exact ⟨isSingleFS_congr nm fi h, h⟩

lemma doSymlink_congr (env : Env) (nm : String) (fi : FileInfo) (dirs : List String)
    {d d' : walkState} (h : CtrlEq d d') :
    (doSymlink env d nm fi dirs).1 = (doSymlink env d' nm fi dirs).1 ∧
    CtrlEq (doSymlink env d nm fi dirs).2 (doSymlink env d' nm fi dirs).2 := by
  simp only [doSymlink]
  rw [h.follow]
  cases hf : d'.opts.FollowSymlinks with
  | false =>
    simp [hf]
    exact ctrlEq_trans (output_ctrl env d nm fi)
      (ctrlEq_trans h (ctrlEq_symm (output_ctrl env d' nm fi)))
  | true =>
    simp only [hf, Bool.not_true, Bool.false_eq_true, if_false]
    cases he : env.evalSymlinks nm with
    | none =>
      simp [he]
      exact ctrlEq_trans (pushErr_ctrl d _)
        (ctrlEq_trans h (ctrlEq_symm (pushErr_ctrl d' _)))
    | some newnm =>
      simp only [he]
      cases hs : env.stat newnm with
      | none =>
        simp [hs]
        exact ctrlEq_trans (pushErr_ctrl d _)
          (ctrlEq_trans h (ctrlEq_symm (pushErr_ctrl d' _)))
      | some fi2 =>
        simp only [hs]
        obtain ⟨hb, hcp⟩ := isEntrySeen_congr newnm fi2 h
        rw [hb]
        cases hseen : (isEntrySeen d' newnm fi2).1 with
        | true =>
          simp [hseen]
          exact hcp
        | false =>
          simp only [hseen, Bool.not_false, if_true]
          cases hdir : modeIsDir fi2.mode with
          | true =>
            simp only [hdir, if_true]
            rw [singlefs_congr newnm fi2 hcp]
            cases hsf : singlefs (isEntrySeen d' newnm fi2).2 newnm fi2 with
            | true =>
              simp [hsf]
              exact hcp
            | false =>
              simp [hsf]
              exact hcp
          | false =>
            simp [hdir]
            exact ctrlEq_trans (output_ctrl env _ newnm fi2)
              (ctrlEq_trans hcp (ctrlEq_symm (output_ctrl env _ newnm fi2)))

lemma walkChild_congr (env : Env) (parent : String) (fi : FileInfo)
    (dirs : List String) {d d' : walkState} (h : CtrlEq d d') :
    (walkChild env parent (d, dirs) fi).2 = (walkChild env parent (d', dirs) fi).2 ∧
    CtrlEq (walkChild env parent (d, dirs) fi).1 (walkChild env parent (d', dirs) fi).1 := by
  simp only [walkChild]
  obtain ⟨hxb, hxc⟩ := exclude_congr env (childFullPath parent fi.name) h
  rw [hxb]
  cases hq : (exclude env d' (childFullPath parent fi.name)).1 with
  | true =>
    simp [hq]
    exact hxc
  | false =>
    simp only [hq, Bool.false_eq_true, if_false]
    obtain ⟨hsb, hsc⟩ := isEntrySeen_congr parent fi hxc
    rw [hsb]
    cases hp : (isEntrySeen (exclude env d' (childFullPath parent fi.name)).2 parent fi).1 with
    | true =>
      simp [hp]
      exact hsc
    | false =>
      simp only [hp, Bool.false_eq_true, if_false]
      rw [filterF_congr (childFullPath parent fi.name) fi hsc]
      cases hfl : filterF (isEntrySeen (exclude env d' (childFullPath parent fi.name)).2
          parent fi).2 (childFullPath parent fi.name) fi with
      | true =>
        simp [hfl]
        exact hsc
      | false =>
        simp only [hfl, Bool.false_eq_true, if_false]
        cases hdir : modeIsDir fi.mode with
        | true =>
          simp only [hdir, if_true]
          rw [singlefs_congr (childFullPath parent fi.name) fi hsc]
          cases hsf : singlefs (isEntrySeen (exclude env d' (childFullPath parent fi.name)).2
              parent fi).2 (childFullPath parent fi.name) fi with
          | true =>
            simp [hsf]
            exact hsc
          | false =>
            simp [hsf]
            exact hsc
        | false =>
          simp only [hdir, Bool.false_eq_true, if_false]
          cases hsym : modeIsSymlink fi.mode with
          | true =>
            simp only [hsym, if_true]
            obtain ⟨hdb, hdc⟩ :=
              doSymlink_congr env (childFullPath parent fi.name) fi dirs hsc
            exact ⟨hdb, hdc⟩
          | false =>
            simp [hsym]
            exact ctrlEq_trans (output_ctrl env _ (childFullPath parent fi.name) fi)
              (ctrlEq_trans hsc
                (ctrlEq_symm (output_ctrl env _ (childFullPath parent fi.name) fi)))

lemma foldWalkChild_congr (env : Env) (parent : String) :
    ∀ (fiv : List FileInfo) (d d' : walkState) (dirs : List String), CtrlEq d d' →
      (fiv.foldl (walkChild env parent) (d, dirs)).2
        = (fiv.foldl (walkChild env parent) (d', dirs)).2 ∧
      CtrlEq (fiv.foldl (walkChild env parent) (d, dirs)).1
        (fiv.foldl (walkChild env parent) (d', dirs)).1 := by
  intro fiv
  induction fiv with
  | nil => intro d d' dirs h; exact ⟨rfl, h⟩
  | cons fi rest ih =>
    intro d d' dirs h
    simp only [List.foldl_cons]
    obtain ⟨hq, hc⟩ := walkChild_congr env parent fi dirs h
    rw [show walkChild env parent (d, dirs) fi
          = ((walkChild env parent (d, dirs) fi).1, (walkChild env parent (d, dirs) fi).2)
        from rfl,
      show walkChild env parent (d', dirs) fi
          = ((walkChild env parent (d', dirs) fi).1, (walkChild env parent (d', dirs) fi).2)
        from rfl,
      hq]
    exact ih _ _ _ hc

lemma walkPath_congr (env : Env) (nm : String) {d d' : walkState} (h : CtrlEq d d') :
    (walkPath env d nm).2 = (walkPath env d' nm).2 ∧
    CtrlEq (walkPath env d nm).1 (walkPath env d' nm).1 := by
  simp only [walkPath]
  cases hr : env.readdir nm with
  | none =>
    simp [hr]
    exact ctrlEq_trans (pushErr_ctrl d _) (ctrlEq_trans h (ctrlEq_symm (pushErr_ctrl d' _)))
  | some fiv =>
    simp only [hr]
    have hv : CtrlEq { d with visited := d.visited ++ [nm] }
        { d' with visited := d'.visited ++ [nm] } :=
      ⟨h.follow, h.onefs, h.xattrs, h.excl, h.filt, h.fs, h.ino, by simp [h.visited]⟩
    exact foldWalkChild_congr env _ fiv _ _ [] hv

lemma workerStep_congr (env : Env) (nm : String) {d d' : walkState} (h : CtrlEq d d') :
    (workerStep env d nm).2 = (workerStep env d' nm).2 ∧
    CtrlEq (workerStep env d nm).1 (workerStep env d' nm).1 := by
  simp only [workerStep]
  cases hl : env.lstat nm with
  | none =>
    simp [hl]
    exact ctrlEq_trans (pushErr_ctrl d _) (ctrlEq_trans h (ctrlEq_symm (pushErr_ctrl d' _)))
  | some fi =>
    simp only [hl]
    have ho : CtrlEq (output env d nm fi) (output env d' nm fi) :=
      ctrlEq_trans (output_ctrl env d nm fi)
        (ctrlEq_trans h (ctrlEq_symm (output_ctrl env d' nm fi)))
    exact walkPath_congr env nm ho

lemma runLoop_congr (env : Env) :
    ∀ (fuel : Nat) (q : List String) (d d' : walkState), CtrlEq d d' →
      CtrlEq (runLoop env fuel d q) (runLoop env fuel d' q) := by
  intro fuel
  induction fuel with
  | zero => intro q d d' h; exact h
  | succ n ih =>
    intro q d d' h
    cases q with
    | nil => exact h
    | cons nm rest =>
      simp only [runLoop]
      obtain ⟨hq, hc⟩ := workerStep_congr env nm h
      rw [hq]
      exact ih _ _ _ hc

lemma doWalkRoot_congr (env : Env) (nm : String) (dirs : List String)
    {d d' : walkState} (h : CtrlEq d d') :
    (doWalkRoot env (d, dirs) nm).2 = (doWalkRoot env (d', dirs) nm).2 ∧
    CtrlEq (doWalkRoot env (d, dirs) nm).1 (doWalkRoot env (d', dirs) nm).1 := by
  simp only [doWalkRoot]
  obtain ⟨hxb, hxc⟩ := exclude_congr env nm h
  rw [hxb]
  cases hq : (exclude env d' nm).1 with
  | true =>
    simp [hq]
    exact hxc
  | false =>
    simp only [hq, Bool.false_eq_true, if_false]
    cases hl : env.lstat nm with
    | none =>
      simp [hl]
      exact ctrlEq_trans (pushErr_ctrl _ _) (ctrlEq_trans hxc (ctrlEq_symm (pushErr_ctrl _ _)))
    | some fi =>
      simp only [hl]
      obtain ⟨hsb, hsc⟩ := isEntrySeen_congr nm fi hxc
      rw [hsb]
      cases hp : (isEntrySeen (exclude env d' nm).2 nm fi).1 with
      | true =>
        simp [hp]
        exact hsc
      | false =>
        simp only [hp, Bool.false_eq_true, if_false]
        rw [filterF_congr nm fi hsc]
        cases hfl : filterF (isEntrySeen (exclude env d' nm).2 nm fi).2 nm fi with
        | true =>
          simp [hfl]
          exact hsc
        | false =>
          simp only [hfl, Bool.false_eq_true, if_false]
          cases hdir : modeIsDir fi.mode with
          | true =>
            simp only [hdir, if_true]
            rw [hsc.onefs]
            cases hone : (isEntrySeen (exclude env d' nm).2 nm fi).2.opts.OneFS with
            | true =>
              simp [hone]
              exact trackFS_ctrl_congr fi nm hsc
            | false =>
              simp [hone]
              exact hsc
          | false =>
            simp only [hdir, Bool.false_eq_true, if_false]
            cases hsym : modeIsSymlink fi.mode with
            | true =>
              simp only [hsym, if_true]
              obtain ⟨hdb, hdc⟩ := doSymlink_congr env nm fi dirs hsc
              exact ⟨hdb, hdc⟩
            | false =>
              simp [hsym]
              exact ctrlEq_trans (output_ctrl env _ nm fi)
                (ctrlEq_trans hsc (ctrlEq_symm (output_ctrl env _ nm fi)))

lemma doWalkFold_congr (env : Env) :
    ∀ (names : List String) (d d' : walkState) (dirs : List String), CtrlEq d d' →
      (names.foldl (doWalkRoot env) (d, dirs)).2
        = (names.foldl (doWalkRoot env) (d', dirs)).2 ∧
      CtrlEq (names.foldl (doWalkRoot env) (d, dirs)).1
        (names.foldl (doWalkRoot env) (d', dirs)).1 := by
  intro names
  induction names with
  | nil => intro d d' dirs h; exact ⟨rfl, h⟩
  | cons nm rest ih =>
    intro d d' dirs h
    simp only [List.foldl_cons]
    obtain ⟨hq, hc⟩ := doWalkRoot_congr env nm dirs h
    rw [show doWalkRoot env (d, dirs) nm
          = ((doWalkRoot env (d, dirs) nm).1, (doWalkRoot env (d, dirs) nm).2) from rfl,
      show doWalkRoot env (d', dirs) nm
          = ((doWalkRoot env (d', dirs) nm).1, (doWalkRoot env (d', dirs) nm).2) from rfl,
      hq]
    exact ih _ _ _ hc

lemma doWalk_congr (env : Env) (names : List String) {d d' : walkState} (h : CtrlEq d d') :
    (doWalk env d names).2 = (doWalk env d' names).2 ∧
    CtrlEq (doWalk env d names).1 (doWalk env d' names).1 := by
  simp only [doWalk]
  have h2 : CtrlEq { d with typ := computeTyp d.opts.TypeMask }
      { d' with typ := computeTyp d'.opts.TypeMask } :=
    ⟨h.follow, h.onefs, h.xattrs, h.excl, h.filt, h.fs, h.ino, h.visited⟩
  exact doWalkFold_congr env (names.map rootName) _ _ [] h2

/-! ### Emission monotonicity: every step only appends to `emitted` -/

lemma applyEmit_extends (env : Env) (d : walkState) (nm : String) (fi : FileInfo) :
    ∃ l, (applyEmit env d nm fi).emitted = d.emitted ++ l := by
  unfold applyEmit
  split
  · cases env.getxattr nm with
    | error e => exact ⟨[], by simp [pushErr]⟩
    | ok x => exact ⟨[{ Path := nm, Stat := fi, Xattr := x }], rfl⟩
  · exact ⟨[{ Path := nm, Stat := fi }], rfl⟩

lemma output_extends (env : Env) (d : walkState) (nm : String) (fi : FileInfo) :
    ∃ l, (output env d nm fi).emitted = d.emitted ++ l := by
  unfold output
  split
  · exact applyEmit_extends env d nm fi
  · exact ⟨[], by simp⟩

lemma doSymlink_extends (env : Env) (d : walkState) (nm : String) (fi : FileInfo)
    (dirs : List String) :
    ∃ l, (doSymlink env d nm fi dirs).2.emitted = d.emitted ++ l := by
  obtain ⟨eo, et, ef, ee, er, ev⟩ := isEntrySeen_frame d nm fi
  unfold doSymlink
  split
  · exact output_extends env d nm fi
  · cases he : env.evalSymlinks nm with
    | none => exact ⟨[], by simp [pushErr]⟩
    | some newnm =>
      simp only [he]
      cases hs : env.stat newnm with
      | none => exact ⟨[], by simp [pushErr]⟩
      | some fi2 =>
        simp only [hs]
        obtain ⟨fo, ft, ff, fe, fr, fv⟩ := isEntrySeen_frame d newnm fi2
        split
        · split
          · split
            · exact ⟨[], by simp [fe]⟩
            · exact ⟨[], by simp [fe]⟩
          · obtain ⟨l, hl⟩ := output_extends env (isEntrySeen d newnm fi2).2 newnm fi2
            exact ⟨l, by rw [hl, fe]⟩
        · exact ⟨[], by simp [fe]⟩

lemma walkChild_extends (env : Env) (parent : String) (fi : FileInfo)
    (d : walkState) (dirs : List String) :
    ∃ l, (walkChild env parent (d, dirs) fi).1.emitted = d.emitted ++ l := by
  obtain ⟨qo, qt, qf, qi, qe, qv⟩ := exclude_frame env d (childFullPath parent fi.name)
  obtain ⟨po, pt, pf, pe, pr, pv⟩ :=
    isEntrySeen_frame (exclude env d (childFullPath parent fi.name)).2 parent fi
  simp only [walkChild]
  split
  · exact ⟨[], by simp [qe]⟩
  · split
    · exact ⟨[], by simp [pe, qe]⟩
    · split
      · exact ⟨[], by simp [pe, qe]⟩
      · split
        · split
          · exact ⟨[], by simp [pe, qe]⟩
          · exact ⟨[], by simp [pe, qe]⟩
        · split
          · obtain ⟨l, hl⟩ := doSymlink_extends env
              (isEntrySeen (exclude env d (childFullPath parent fi.name)).2 parent fi).2
              (childFullPath parent fi.name) fi dirs
            exact ⟨l, by rw [hl, pe, qe]⟩
          · obtain ⟨l, hl⟩ := output_extends env
              (isEntrySeen (exclude env d (childFullPath parent fi.name)).2 parent fi).2
              (childFullPath parent fi.name) fi
            exact ⟨l, by rw [hl, pe, qe]⟩

lemma foldWalkChild_extends (env : Env) (parent : String) :
    ∀ (fiv : List FileInfo) (d : walkState) (dirs : List String),
      ∃ l, (fiv.foldl (walkChild env parent) (d, dirs)).1.emitted = d.emitted ++ l := by
  intro fiv
  induction fiv with
  | nil => intro d dirs; exact ⟨[], by simp⟩
  | cons fi rest ih =>
    intro d dirs
    simp only [List.foldl_cons]
    obtain ⟨l1, h1⟩ := walkChild_extends env parent fi d dirs
    obtain ⟨l2, h2⟩ := ih (walkChild env parent (d, dirs) fi).1
      (walkChild env parent (d, dirs) fi).2
    refine ⟨l1 ++ l2, ?_⟩
    rw [show walkChild env parent (d, dirs) fi
          = ((walkChild env parent (d, dirs) fi).1, (walkChild env parent (d, dirs) fi).2)
        from rfl] at h2 ⊢
    rw [h2, h1, List.append_assoc]

lemma walkPath_extends (env : Env) (d : walkState) (nm : String) :
    ∃ l, (walkPath env d nm).1.emitted = d.emitted ++ l := by
  simp only [walkPath]
  cases hr : env.readdir nm with
  | none => exact ⟨[], by simp [pushErr]⟩
  | some fiv =>
    simp only [hr]
    obtain ⟨l, hl⟩ := foldWalkChild_extends env (if nm = "/" then "" else nm) fiv
      { d with visited := d.visited ++ [nm] } []
    exact ⟨l, hl⟩

/-! ### C8 -/

/-- C8: the requested type mask gates only emission, never descent.
First conjunct: two traversals differing only in the type mask visit
(open and list) exactly the same directories, whatever the filesystem,
roots, other options and schedule length - the mask is read only by
`output`, which cannot influence control flow. Second conjunct: a worker
processing a queued directory emits the directory's own entry exactly
when the mask matches it (`outputOk`), and everything else it adds to the
emission list comes from the directory's children; a directory not
matching the mask is still listed and its children still processed (the
first conjunct), only its own entry is suppressed. -/
theorem type_mask_gates_only_emission :
    (∀ (env : Env) (names : List String) (o : Options) (t t' fuel : Nat),
      (walkRun env names (some { o with TypeMask := t }) fuel).visited =
        (walkRun env names (some { o with TypeMask := t' }) fuel).visited) ∧
    (∀ (env : Env) (d : walkState) (nm : String) (fi : FileInfo),
      env.lstat nm = some fi → d.opts.Xattr = false →
      ∃ tail, (workerStep env d nm).1.emitted =
        d.emitted ++ (if outputOk d fi.mode then [{ Path := nm, Stat := fi }] else [])
          ++ tail) := by
  constructor
  · intro env names o t t' fuel
    have h0 : CtrlEq (newWalkState (some { o with TypeMask := t }))
        (newWalkState (some { o with TypeMask := t' })) :=
      ⟨rfl, rfl, rfl, rfl, rfl, rfl, rfl, rfl⟩
    simp only [walkRun]
    obtain ⟨hq, hc⟩ := doWalk_congr env names h0
    rw [hq]
    exact (runLoop_congr env fuel _ _ _ hc).visited
  · intro env d nm fi hl hxa
    simp only [workerStep, hl]
    cases hok : outputOk d fi.mode with
    | true =>
      rw [output_match_noxattr env d nm fi hok hxa]
      obtain ⟨l, hle⟩ := walkPath_extends env
        { d with emitted := d.emitted ++ [{ Path := nm, Stat := fi }] } nm
      refine ⟨l, ?_⟩
      rw [hle]
      simp
    | false =>
      rw [output_not_match env d nm fi hok]
      obtain ⟨l, hle⟩ := walkPath_extends env d nm
      refine ⟨l, ?_⟩
      rw [hle]
      simp

/-- Witness for C8's theorem at a concrete input: the dir root "r" of
`env3` under mask DIR. -/
theorem type_mask_gates_only_emission_witness :
    ∃ tail, (workerStep env3 (newWalkState (some { TypeMask := DIR })) "r").1.emitted =
      (newWalkState (some { TypeMask := DIR })).emitted ++
        (if outputOk (newWalkState (some { TypeMask := DIR })) rDirFi.mode
         then [{ Path := "r", Stat := rDirFi }] else []) ++ tail :=
  type_mask_gates_only_emission.2 env3 (newWalkState (some { TypeMask := DIR })) "r" rDirFi
    (by decide) (by decide)

/-! ### The zero type mask emits nothing (for C9) -/

/-- A state whose derived and requested masks are both zero: the state of
a traversal started with a nil (or zero-valued) Options. -/
def MaskZero (d : walkState) : Prop := d.typ = 0 ∧ d.opts.TypeMask = 0

lemma outputOk_zero {d : walkState} (h : MaskZero d) (m : Nat) : outputOk d m = false := by
  unfold outputOk
  rw [h.1, h.2]
  simp [Nat.zero_and]

lemma output_zero (env : Env) {d : walkState} (h : MaskZero d) (nm : String)
    (fi : FileInfo) : output env d nm fi = d :=
  output_not_match env d nm fi (outputOk_zero h fi.mode)

lemma pushErr_maskZero {d : walkState} (h : MaskZero d) (e : String) :
    MaskZero (pushErr d e) := h

lemma trackFS_maskZero {d : walkState} (h : MaskZero d) (fi : FileInfo) (nm : String) :
    MaskZero (trackFS d fi nm) := h

lemma exclude_maskZero (env : Env) (nm : String) {d : walkState} (h : MaskZero d) :
    MaskZero (exclude env d nm).2 := by
  obtain ⟨ho, ht, _, _, _, _⟩ := exclude_frame env d nm
  exact ⟨ht.trans h.1, by rw [ho]; exact h.2⟩

lemma isEntrySeen_maskZero (nm : String) (fi : FileInfo) {d : walkState} (h : MaskZero d) :
    MaskZero (isEntrySeen d nm fi).2 := by
  obtain ⟨ho, ht, _, _, _, _⟩ := isEntrySeen_frame d nm fi
  exact ⟨ht.trans h.1, by rw [ho]; exact h.2⟩

lemma doSymlink_zero (env : Env) (nm : String) (fi : FileInfo) (dirs : List String)
    {d : walkState} (h : MaskZero d) :
    (doSymlink env d nm fi dirs).2.emitted = d.emitted ∧
    MaskZero (doSymlink env d nm fi dirs).2 := by
  unfold doSymlink
  split
  · rw [output_zero env h nm fi]
    exact ⟨rfl, h⟩
  · cases he : env.evalSymlinks nm with
    | none => exact ⟨rfl, pushErr_maskZero h _⟩
    | some newnm =>
      simp only [he]
      cases hs : env.stat newnm with
      | none => exact ⟨rfl, pushErr_maskZero h _⟩
      | some fi2 =>
        simp only [hs]
        have h2 : MaskZero (isEntrySeen d newnm fi2).2 := isEntrySeen_maskZero newnm fi2 h
        obtain ⟨_, _, _, fe, _, _⟩ := isEntrySeen_frame d newnm fi2
        split
        · split
          · split
            · exact ⟨fe, h2⟩
            · exact ⟨fe, h2⟩
          · rw [output_zero env h2 newnm fi2]
            exact ⟨fe, h2⟩
        · exact ⟨fe, h2⟩

lemma walkChild_zero (env : Env) (parent : String) (fi : FileInfo)
    {d : walkState} (dirs : List String) (h : MaskZero d) :
    (walkChild env parent (d, dirs) fi).1.emitted = d.emitted ∧
    MaskZero (walkChild env parent (d, dirs) fi).1 := by
  have hq : MaskZero (exclude env d (childFullPath parent fi.name)).2 :=
    exclude_maskZero env _ h
  have hp : MaskZero (isEntrySeen (exclude env d (childFullPath parent fi.name)).2
      parent fi).2 := isEntrySeen_maskZero _ fi hq
  obtain ⟨_, _, _, _, qe, _⟩ := exclude_frame env d (childFullPath parent fi.name)
  obtain ⟨_, _, _, pe, _, _⟩ :=
    isEntrySeen_frame (exclude env d (childFullPath parent fi.name)).2 parent fi
  simp only [walkChild]
  split
  · exact ⟨qe, hq⟩
  · split
    · exact ⟨pe.trans qe, hp⟩
    · split
      · exact ⟨pe.trans qe, hp⟩
      · split
        · split
          · exact ⟨pe.trans qe, hp⟩
          · exact ⟨pe.trans qe, hp⟩
        · split
          · obtain ⟨he, hz⟩ := doSymlink_zero env (childFullPath parent fi.name) fi dirs hp
            exact ⟨he.trans (pe.trans qe), hz⟩
          · rw [output_zero env hp (childFullPath parent fi.name) fi]
            exact ⟨pe.trans qe, hp⟩

lemma foldWalkChild_zero (env : Env) (parent : String) :
    ∀ (fiv : List FileInfo) (d : walkState) (dirs : List String), MaskZero d →
      (fiv.foldl (walkChild env parent) (d, dirs)).1.emitted = d.emitted ∧
      MaskZero (fiv.foldl (walkChild env parent) (d, dirs)).1 := by
  intro fiv
  induction fiv with
  | nil => intro d dirs h; exact ⟨rfl, h⟩
  | cons fi rest ih =>
    intro d dirs h
    simp only [List.foldl_cons]
    obtain ⟨he, hz⟩ := walkChild_zero env parent fi dirs h
    obtain ⟨he2, hz2⟩ := ih (walkChild env parent (d, dirs) fi).1
      (walkChild env parent (d, dirs) fi).2 hz
    rw [show walkChild env parent (d, dirs) fi
          = ((walkChild env parent (d, dirs) fi).1, (walkChild env parent (d, dirs) fi).2)
        from rfl] at he2 hz2 ⊢
    exact ⟨he2.trans he, hz2⟩

lemma walkPath_zero (env : Env) (nm : String) {d : walkState} (h : MaskZero d) :
    (walkPath env d nm).1.emitted = d.emitted ∧ MaskZero (walkPath env d nm).1 := by
  simp only [walkPath]
  cases hr : env.readdir nm with
  | none => exact ⟨rfl, pushErr_maskZero h _⟩
  | some fiv =>
    simp only [hr]
    exact foldWalkChild_zero env _ fiv { d with visited := d.visited ++ [nm] } [] h

lemma workerStep_zero (env : Env) (nm : String) {d : walkState} (h : MaskZero d) :
    (workerStep env d nm).1.emitted = d.emitted ∧ MaskZero (workerStep env d nm).1 := by
  simp only [workerStep]
  cases hl : env.lstat nm with
  | none => exact ⟨rfl, pushErr_maskZero h _⟩
  | some fi =>
    simp only [hl]
    rw [output_zero env h nm fi]
    exact walkPath_zero env nm h

lemma runLoop_zero (env : Env) :
    ∀ (fuel : Nat) (q : List String) (d : walkState), MaskZero d →
      (runLoop env fuel d q).emitted = d.emitted ∧ MaskZero (runLoop env fuel d q) := by
  intro fuel
  induction fuel with
  | zero => intro q d h; exact ⟨rfl, h⟩
  | succ n ih =>
    intro q d h
    cases q with
    | nil => exact ⟨rfl, h⟩
    | cons nm rest =>
      simp only [runLoop]
      obtain ⟨he, hz⟩ := workerStep_zero env nm h
      obtain ⟨he2, hz2⟩ := ih (rest ++ (workerStep env d nm).2) (workerStep env d nm).1 hz
      exact ⟨he2.trans he, hz2⟩

lemma doWalkRoot_zero (env : Env) (nm : String) {d : walkState} (dirs : List String)
    (h : MaskZero d) :
    (doWalkRoot env (d, dirs) nm).1.emitted = d.emitted ∧
    MaskZero (doWalkRoot env (d, dirs) nm).1 := by
  have hq : MaskZero (exclude env d nm).2 := exclude_maskZero env nm h
  have hp : ∀ fi2, MaskZero (isEntrySeen (exclude env d nm).2 nm fi2).2 := fun fi2 =>
    isEntrySeen_maskZero nm fi2 hq
  obtain ⟨_, _, _, _, qe, _⟩ := exclude_frame env d nm
  simp only [doWalkRoot]
  split
  · exact ⟨qe, hq⟩
  · cases hl : env.lstat nm with
    | none => exact ⟨qe, pushErr_maskZero hq _⟩
    | some fi =>
      simp only [hl]
      obtain ⟨_, _, _, pe, _, _⟩ := isEntrySeen_frame (exclude env d nm).2 nm fi
      split
      · exact ⟨pe.trans qe, hp fi⟩
      · split
        · exact ⟨pe.trans qe, hp fi⟩
        · split
          · split
            · exact ⟨pe.trans qe, trackFS_maskZero (hp fi) fi nm⟩
            · exact ⟨pe.trans qe, hp fi⟩
          · split
            · obtain ⟨he, hz⟩ := doSymlink_zero env nm fi dirs (hp fi)
              exact ⟨he.trans (pe.trans qe), hz⟩
            · rw [output_zero env (hp fi) nm fi]
              exact ⟨pe.trans qe, hp fi⟩

lemma doWalkFold_zero (env : Env) :
    ∀ (names : List String) (d : walkState) (dirs : List String), MaskZero d →
      (names.foldl (doWalkRoot env) (d, dirs)).1.emitted = d.emitted ∧
      MaskZero (names.foldl (doWalkRoot env) (d, dirs)).1 := by
  intro names
  induction names with
  | nil => intro d dirs h; exact ⟨rfl, h⟩
  | cons nm rest ih =>
    intro d dirs h
    simp only [List.foldl_cons]
    obtain ⟨he, hz⟩ := doWalkRoot_zero env nm dirs h
    obtain ⟨he2, hz2⟩ := ih (doWalkRoot env (d, dirs) nm).1 (doWalkRoot env (d, dirs) nm).2 hz
    rw [show doWalkRoot env (d, dirs) nm
          = ((doWalkRoot env (d, dirs) nm).1, (doWalkRoot env (d, dirs) nm).2) from rfl]
      at he2 hz2 ⊢
    exact ⟨he2.trans he, hz2⟩

lemma doWalk_zero (env : Env) (names : List String) {d : walkState}
    (h : d.opts.TypeMask = 0) :
    (doWalk env d names).1.emitted = d.emitted ∧ MaskZero (doWalk env d names).1 := by
  simp only [doWalk]
  have h0 : MaskZero { d with typ := computeTyp d.opts.TypeMask } := by
    constructor
    · show computeTyp d.opts.TypeMask = 0
      rw [h]
      decide
    · exact h
  exact doWalkFold_zero env (names.map rootName) _ [] h0

/-! ### C9 -/

/-- C9: a nil Options pointer is replaced by the zero Options value
(walk.go lines 240-242), so `Walk`/`WalkFunc` accept it; since the zero
type mask requests no entry type, such a traversal emits nothing at all
(second conjunct, over every filesystem, root set and schedule length),
while still descending into and listing exactly the directories that any
other mask - here ALL - would visit (third conjunct). -/
theorem nil_options_zero_mask_behavior :
    (newWalkState none = newWalkState (some {})) ∧
    (∀ (env : Env) (names : List String) (fuel : Nat),
      (walkRun env names none fuel).emitted = []) ∧
    (∀ (env : Env) (names : List String) (fuel : Nat),
      (walkRun env names none fuel).visited =
        (walkRun env names (some { TypeMask := ALL }) fuel).visited) := by
  refine ⟨rfl, ?_, ?_⟩
  · intro env names fuel
    simp only [walkRun]
    obtain ⟨he, hz⟩ := doWalk_zero env names (d := newWalkState none) rfl
    obtain ⟨he2, _⟩ := runLoop_zero env fuel (doWalk env (newWalkState none) names).2
      (doWalk env (newWalkState none) names).1 hz
    exact he2.trans he
  · intro env names fuel
    have h0 : CtrlEq (newWalkState none) (newWalkState (some { TypeMask := ALL })) :=
      ⟨rfl, rfl, rfl, rfl, rfl, rfl, rfl, rfl⟩
    simp only [walkRun]
    obtain ⟨hq, hc⟩ := doWalk_congr env names h0
    rw [hq]
    exact (runLoop_congr env fuel _ _ _ hc).visited

end Walk
